import Mathlib

/-!
Shallow embedding of the reminder scheduling core of the medicine-reminder
backend, and proofs about it.

Times are modelled as natural numbers: milliseconds since the Unix epoch on
the local wall clock of the deployment (the code does all of its date
arithmetic on JavaScript `Date` values in one fixed-offset timezone with no
daylight saving, so day arithmetic is plain arithmetic on milliseconds).
Database documents become Lean structures; `findByIdAndUpdate` patches are
record updates that bypass the mongoose save hook, while `document.save()`
runs the hook, exactly as in the source.
-/

namespace MedReminder

/-- Status of a single medicine item inside a reminder occurrence
(models the per-item `status` enum in the Reminder schema). -/
inductive MedStatus
  | pending
  | taken
  | missed
deriving DecidableEq, Repr

/-- Aggregate status of a reminder occurrence
(models the `status` enum of ReminderSchema in src/models/Reminder.js). -/
inductive AggStatus
  | pending
  | completed
  | partially_completed
  | missed
  | snoozed
deriving DecidableEq, Repr

/-- Repeat rule kind (models the `repeat` enum of ReminderSchema). -/
inductive RepeatKind
  | none
  | daily
  | weekly
  | monthly
  | custom
deriving DecidableEq, Repr

/-- Unit for custom repeat intervals (models the `repeatUnit` enum). -/
inductive RepeatUnit
  | hours
  | days
  | weeks
  | months
deriving DecidableEq, Repr

/-- One entry of the `medicines` array of a reminder document:
an independent status plus who and when marked it. -/
structure MedItem where
  status : MedStatus
  markedBy : Option Nat := Option.none
  markedAt : Option Nat := Option.none
deriving DecidableEq, Repr

/-- A reminder occurrence document (ReminderSchema in src/models/Reminder.js).
Object ids are modelled as naturals; `time` is the fire time in ms. -/
structure Reminder where
  id : Nat
  user : Nat
  medicines : List MedItem
  scheduleStart : Nat := 0
  scheduleEnd : Option Nat := Option.none
  active : Bool := true
  time : Nat
  status : AggStatus := AggStatus.pending
  snoozedUntil : Option Nat := Option.none
  missedAt : Option Nat := Option.none
  notificationSent : Bool := false
  notificationCount : Nat := 0
  parentNotified : Bool := false
  repeatKind : RepeatKind := RepeatKind.none
  daysOfWeek : List Nat := []
  daysOfMonth : List Nat := []
  repeatInterval : Option Nat := Option.none
  repeatUnit : RepeatUnit := RepeatUnit.days
deriving DecidableEq, Repr

/-- The ReminderSchema pre("save") hook (src/models/Reminder.js lines 112-129):
recomputes the aggregate `status` from the per-item statuses whenever the
`medicines` path was modified.  Note the order of the branches: the
partially-completed branch fires for any mix of taken and non-taken items,
before the missed branch is ever consulted. -/
def preSaveStatus (statuses : List MedStatus) (current : AggStatus) : AggStatus :=
  if statuses.all (fun s => s == MedStatus.taken) then
    AggStatus.completed
  else if (statuses.any (fun s => s == MedStatus.taken)) &&
      !(statuses.all (fun s => s == MedStatus.taken)) then
    AggStatus.partially_completed
  else if statuses.any (fun s => s == MedStatus.missed) then
    AggStatus.missed
  else
    current

/-- Models `document.save()` on a reminder whose `medicines` path was
modified: the pre-save hook recomputes the aggregate status. -/
def save (r : Reminder) : Reminder :=
  { r with status := preSaveStatus (r.medicines.map (fun m => m.status)) r.status }

namespace Controller

/-- The markMedicineAsMissed handler (src/controllers/reminderController.js):
marks the item at `medicineIndex` missed, sets the aggregate to missed when
some item is missed, then saves (which runs the pre-save hook).  Returns
`Option.none` for an out-of-range index (the 400 response). -/
def markMedicineAsMissed (r : Reminder) (medicineIndex : Nat)
    (userId : Nat) (now : Nat) : Option Reminder :=
  if h : medicineIndex < r.medicines.length then
    let item := r.medicines.get ⟨medicineIndex, h⟩
    let meds := r.medicines.set medicineIndex
      { item with status := MedStatus.missed,
                  markedBy := some userId, markedAt := some now }
    let allMedicineStatuses := meds.map (fun m => m.status)
    let st :=
      if allMedicineStatuses.any (fun s => s == MedStatus.missed) then
        AggStatus.missed
      else r.status
    some (save { r with medicines := meds, status := st })
  else
    Option.none

end Controller

/-! Calendar arithmetic.  JavaScript Date values in one fixed-offset timezone
are modelled as milliseconds since the epoch; getDay, setDate and the
`new Date(year, month, day, hours, minutes)` constructor (which normalizes
out-of-range month and day exactly like adding whole months and days) are
translated below.  January 1 1970 was a Thursday, hence the +4 in getDay. -/

def msPerMinute : Nat := 60000

def msPerHour : Nat := 3600000

def msPerDay : Nat := 86400000

/-- Day of week of a time, 0 = Sunday .. 6 = Saturday (Date.prototype.getDay). -/
def getDay (t : Nat) : Nat := (t / msPerDay + 4) % 7

/-- Adding d whole days (nextTime.setDate(nextTime.getDate() + d)). -/
def addDays (t : Nat) (d : Nat) : Nat := t + d * msPerDay

/-- Gregorian leap-year test. -/
def isLeapYear (y : Nat) : Bool := (y % 4 == 0 && y % 100 != 0) || (y % 400 == 0)

/-- Days in 0-based month m of year y. -/
def daysInMonth (y m : Nat) : Nat :=
  if m == 1 then (if isLeapYear y then 29 else 28)
  else if m == 3 || m == 5 || m == 8 || m == 10 then 30
  else 31

/-- Days from 1970-01-01 to the first day of year y (y at least 1970). -/
def daysToYearStart (y : Nat) : Nat :=
  (List.range (y - 1970)).foldl
    (fun acc i => acc + (if isLeapYear (1970 + i) then 366 else 365)) 0

/-- Days from the first of year y to the first of 0-based month m. -/
def daysBeforeMonth (y : Nat) : Nat → Nat
  | 0 => 0
  | m + 1 => daysBeforeMonth y m + daysInMonth y m

/-- Fuel-driven year extraction: given days since the epoch, returns the year
and the remaining day-of-year. -/
def yearAux : Nat → Nat → Nat → Nat × Nat
  | 0, y, days => (y, days)
  | fuel + 1, y, days =>
    let diy := if isLeapYear y then 366 else 365
    if days < diy then (y, days) else yearAux fuel (y + 1) (days - diy)

/-- Fuel-driven month extraction: given a year and a day-of-year, returns the
0-based month and the 1-based day of month. -/
def monthAux (y : Nat) : Nat → Nat → Nat → Nat × Nat
  | 0, m, doy => (m, doy + 1)
  | fuel + 1, m, doy =>
    let dim := daysInMonth y m
    if doy < dim then (m, doy + 1) else monthAux y fuel (m + 1) (doy - dim)

/-- Civil date (year, 0-based month, 1-based day) of a day count since the
epoch. -/
def civilFromDays (days : Nat) : Nat × Nat × Nat :=
  let yd := yearAux (days + 1) 1970 days
  let md := monthAux yd.1 11 0 yd.2
  (yd.1, md.1, md.2)

/-- Day count since the epoch of a civil date, with JavaScript Date
normalization: month may exceed 11 (rolls into later years) and day may
exceed the month length (rolls into later months). -/
def daysFromCivil (y m d : Nat) : Nat :=
  let y2 := y + m / 12
  let m2 := m % 12
  daysToYearStart y2 + daysBeforeMonth y2 m2 + (d - 1)

/-- Models new Date(year, month, day, hours, minutes).getTime(). -/
def mkDateMs (y m d hh mi : Nat) : Nat :=
  daysFromCivil y m d * msPerDay + hh * msPerHour + mi * msPerMinute

/-- Models nextTime.setMonth(nextTime.getMonth() + k): same day of month and
time of day, k months later, day overflow normalized. -/
def setMonthPlus (t : Nat) (k : Nat) : Nat :=
  let c := civilFromDays (t / msPerDay)
  daysFromCivil c.1 (c.2.1 + k) c.2.2 * msPerDay + t % msPerDay

/-- Insertion of an element into a sorted list (ascending). -/
def insertSorted (a : Nat) : List Nat → List Nat
  | [] => [a]
  | b :: l => if a ≤ b then a :: b :: l else b :: insertSorted a l

/-- Ascending sort.  The JavaScript code sorts daysOfWeek with the default
(lexicographic) comparator and daysOfMonth with a numeric comparator; on the
schema-validated ranges (single digits 0-6, and 1-31 where the code always
compares numerically) both coincide with the numeric ascending sort. -/
def sortNat (l : List Nat) : List Nat := l.foldr insertSorted []

/-- Effective fire time of an occurrence: snoozedUntil for a snoozed
occurrence that has one, else the stored fire time (both schedulers use this
rule). -/
def effectiveTime (r : Reminder) : Nat :=
  match r.status, r.snoozedUntil with
  | AggStatus.snoozed, some su => su
  | _, _ => r.time

namespace QueueService

/-- Delayed jobs held in the Bull queues, keyed by reminder id and carrying
the instant at which they fire (time of scheduling plus delay). -/
structure QueueState where
  reminderJobs : List (Nat × Nat) := []
  missedJobs : List (Nat × Nat) := []
  recurringJobs : List Nat := []
deriving DecidableEq, Repr

/-- scheduleReminder (utils/queueService.js): skips, returning false, unless
the fire time is strictly in the future; otherwise adds one job to the
reminder queue with delay fireAt - now. -/
def scheduleReminder (q : QueueState) (reminderId fireAt now : Nat) :
    QueueState × Bool :=
  if fireAt ≤ now then (q, false)
  else ({ q with reminderJobs := q.reminderJobs ++ [(reminderId, fireAt)] }, true)

/-- cancelReminder (utils/queueService.js): removes every job of both the
reminder queue and the missed-dose queue whose payload carries this id. -/
def cancelReminder (q : QueueState) (reminderId : Nat) : QueueState :=
  { q with
    reminderJobs := q.reminderJobs.filter (fun j => !(j.1 == reminderId)),
    missedJobs := q.missedJobs.filter (fun j => !(j.1 == reminderId)) }

/-- calculateNextTime (utils/queueService.js): the next fire time per repeat
rule, translated branch by branch. -/
def calculateNextTime (r : Reminder) : Nat :=
  let currentTime := r.time
  match r.repeatKind with
  | RepeatKind.daily => addDays currentTime 1
  | RepeatKind.weekly =>
    if r.daysOfWeek.length > 0 then
      let currentDayOfWeek := getDay currentTime
      let sortedDays := sortNat r.daysOfWeek
      match sortedDays.find? (fun day => currentDayOfWeek < day) with
      | some nextDay => addDays currentTime (nextDay - currentDayOfWeek)
      | Option.none =>
        addDays currentTime (7 - currentDayOfWeek + sortedDays.headD 0)
    else addDays currentTime 7
  | RepeatKind.monthly =>
    if r.daysOfMonth.length > 0 then
      let c := civilFromDays (currentTime / msPerDay)
      let hh := currentTime % msPerDay / msPerHour
      let mi := currentTime % msPerHour / msPerMinute
      let sortedDays := sortNat r.daysOfMonth
      match sortedDays.find? (fun day => c.2.2 < day) with
      | some nextDay => mkDateMs c.1 c.2.1 nextDay hh mi
      | Option.none => mkDateMs c.1 (c.2.1 + 1) (sortedDays.headD 0) hh mi
    else setMonthPlus currentTime 1
  | RepeatKind.custom =>
    match r.repeatInterval with
    | some k =>
      if k != 0 then
        match r.repeatUnit with
        | RepeatUnit.hours => currentTime + k * msPerHour
        | RepeatUnit.days => addDays currentTime k
        | RepeatUnit.weeks => addDays currentTime (k * 7)
        | RepeatUnit.months => setMonthPlus currentTime k
      else currentTime
    | Option.none => currentTime
  | RepeatKind.none => currentTime

/-- createNextOccurrence (utils/queueService.js): computes the next time; if
a schedule end is set and the next time is strictly past it, creates nothing
and returns silently; otherwise persists a cloned occurrence reset to pending
and schedules its notification job. -/
def createNextOccurrence (r : Reminder) (newId : Nat) (now : Nat)
    (q : QueueState) : Option Reminder × QueueState :=
  let nextTime := calculateNextTime r
  if (match r.scheduleEnd with
      | some e => decide (e < nextTime)
      | Option.none => false) then
    (Option.none, q)
  else
    let newReminder : Reminder :=
      { r with
        id := newId,
        medicines := r.medicines.map (fun _ => { status := MedStatus.pending }),
        time := nextTime,
        status := AggStatus.pending,
        snoozedUntil := Option.none,
        missedAt := Option.none,
        notificationSent := false,
        notificationCount := 0,
        parentNotified := false,
        active := true }
    let qb := scheduleReminder q newId nextTime now
    (some newReminder, qb.1)

/-- Result codes returned by the reminder queue processor. -/
inductive FireResult
  | success
  | reminderNotFound
  | reminderInactiveOrCompleted
deriving DecidableEq, Repr

/-- External collaborators of the fire handler: whether the populated owner
document exists and its push notification preference. -/
structure FireEnv where
  ownerRecord : Bool
  ownerPush : Bool
deriving DecidableEq, Repr

/-- Outcome of one run of the reminder queue processor: persisted state, the
queues, the number of owner push notifications dispatched, and the result. -/
structure FireOutcome where
  store : Option Reminder
  queues : QueueState
  ownerPushCount : Nat
  result : FireResult
deriving DecidableEq, Repr

/-- reminderQueue.process (utils/queueService.js): reload the occurrence;
skip when absent; skip when no longer active or not pending; else send the
notifications (push when the owner exists with the push preference, then
persist notificationSent and increment notificationCount), schedule the
missed-dose check thirty minutes after the stored fire time when still in
the future, and queue a recurrence job only when the repeat rule is not none
AND a schedule end is set. -/
def processReminderFire (store : Option Reminder) (q : QueueState)
    (env : FireEnv) (now : Nat) : FireOutcome :=
  match store with
  | Option.none => ⟨store, q, 0, FireResult.reminderNotFound⟩
  | some r =>
    if !r.active || !(r.status == AggStatus.pending) then
      ⟨store, q, 0, FireResult.reminderInactiveOrCompleted⟩
    else
      let pushes := if env.ownerRecord && env.ownerPush then 1 else 0
      let store1 :=
        if env.ownerRecord then
          some { r with notificationSent := true,
                        notificationCount := r.notificationCount + 1 }
        else store
      let checkTime := r.time + 30 * msPerMinute
      let q1 :=
        if checkTime ≤ now then q
        else { q with missedJobs := q.missedJobs ++ [(r.id, checkTime)] }
      let q2 :=
        if r.repeatKind != RepeatKind.none && r.scheduleEnd.isSome then
          { q1 with recurringJobs := q1.recurringJobs ++ [r.id] }
        else q1
      ⟨store1, q2, pushes, FireResult.success⟩

/-- External collaborators of the missed-dose check handler: the parent link
of the populated owner, whether the parent user document exists, and the
parent push notification preference. -/
structure MissedEnv where
  ownerParent : Option Nat
  parentRecord : Bool
  parentPush : Bool
deriving DecidableEq, Repr

/-- notifyParent (utils/queueService.js): loads the parent user; when absent
returns without any write; otherwise sends the missed-dose alert (push when
the parent push preference is on) and persists parentNotified = true. -/
def notifyParent (store : Option Reminder) (env : MissedEnv) :
    Option Reminder × Nat :=
  if env.parentRecord then
    (store.map (fun r => { r with parentNotified := true }),
     if env.parentPush then 1 else 0)
  else (store, 0)

/-- missedDoseQueue.process (utils/queueService.js): reload the occurrence;
when some item is still pending, set every pending item to missed, persist
aggregate missed with missedAt = now, and when the reloaded owner has a
parent and parentNotified is false, run notifyParent; otherwise no action.
Returns the persisted state and the number of guardian push notifications
dispatched. -/
def processMissedDoseCheck (store : Option Reminder) (env : MissedEnv)
    (now : Nat) : Option Reminder × Nat :=
  match store with
  | Option.none => (store, 0)
  | some r =>
    let hasPendingMedicines :=
      r.medicines.any (fun m => m.status == MedStatus.pending)
    if hasPendingMedicines then
      let updatedMedicines := r.medicines.map (fun m =>
        if m.status == MedStatus.pending then
          { m with status := MedStatus.missed }
        else m)
      let store1 : Option Reminder :=
        some { r with status := AggStatus.missed,
                      medicines := updatedMedicines,
                      missedAt := some now }
      if env.ownerParent.isSome && !r.parentNotified then
        notifyParent store1 env
      else (store1, 0)
    else (store, 0)

/-- snoozeReminder (utils/queueService.js): persists status snoozed and
snoozedUntil (findByIdAndUpdate, no save hook), cancels both existing jobs
for the id, and schedules a new reminder job at the snoozed time. -/
def snoozeReminder (store : Option Reminder) (q : QueueState)
    (reminderId snoozedUntil now : Nat) : Option Reminder × QueueState :=
  match store with
  | Option.none => (store, q)
  | some r =>
    let r1 := { r with status := AggStatus.snoozed,
                       snoozedUntil := some snoozedUntil }
    let q1 := cancelReminder q reminderId
    let q2 := (scheduleReminder q1 reminderId snoozedUntil now).1
    (some r1, q2)

/-- The IST offset that scheduleRemindersInRange adds to both bounds:
five hours thirty minutes in milliseconds. -/
def istOffsetMs : Nat := 19800000

/-- The store query of scheduleRemindersInRange: stored time within the
(shifted) closed bounds, active, status pending or snoozed, optional user
filter. -/
def matchesRangeQuery (startDate endDate : Nat) (userId : Option Nat)
    (r : Reminder) : Bool :=
  startDate ≤ r.time && r.time ≤ endDate && r.active &&
    (r.status == AggStatus.pending || r.status == AggStatus.snoozed) &&
    (match userId with
     | Option.none => true
     | some u => r.user == u)

/-- One iteration of the scheduling loop of scheduleRemindersInRange:
schedule at the effective time when it is still strictly in the future and
count it, else skip. -/
def rangeStep (now : Nat) (acc : QueueState × Nat) (r : Reminder) :
    QueueState × Nat :=
  let reminderTime := effectiveTime r
  if now < reminderTime then
    ((scheduleReminder acc.1 r.id reminderTime now).1, acc.2 + 1)
  else acc

/-- scheduleRemindersInRange (utils/queueService.js): adds five hours thirty
minutes to both bounds, queries stored occurrences by (shifted) stored time,
activity, status and optional user, schedules each whose effective time is
still strictly in the future, and returns the number scheduled.  The batch
loop (sort, skip, limit in pages of 100) enumerates each matched document of
a static store exactly once, so it is modelled as a single pass; the sort
affects only the order of the jobs. -/
def scheduleRemindersInRange (store : List Reminder) (q : QueueState)
    (startDate endDate : Nat) (userId : Option Nat) (now : Nat) :
    QueueState × Nat :=
  let s2 := startDate + istOffsetMs
  let e2 := endDate + istOffsetMs
  let matched := store.filter (matchesRangeQuery s2 e2 userId)
  matched.foldl (rangeStep now) (q, 0)

end QueueService

namespace Controller

/-- snoozeReminder (src/controllers/reminderController.js): computes
snoozedUntil = now + minutes times sixty thousand ms, persists status
snoozed and snoozedUntil (findByIdAndUpdate, no save hook), then delegates
to the queue service snooze which cancels the outstanding jobs for the id
and schedules one job at the snoozed time. -/
def snoozeReminder (store : Option Reminder) (q : QueueService.QueueState)
    (minutes now : Nat) : Option Reminder × QueueService.QueueState :=
  match store with
  | Option.none => (store, q)
  | some r =>
    let snoozedUntil := now + minutes * msPerMinute
    let store1 : Option Reminder :=
      some { r with status := AggStatus.snoozed,
                    snoozedUntil := some snoozedUntil }
    QueueService.snoozeReminder store1 q r.id snoozedUntil now

end Controller

namespace NodeSchedule

/-- Keys of the in-process scheduledJobs table of utils/scheduler.js: the
fire job is keyed by the reminder id, the missed-dose check by the
missed-prefixed id. -/
inductive JobKey
  | fire (reminderId : Nat)
  | missedCheck (reminderId : Nat)
deriving DecidableEq, Repr

/-- The global scheduledJobs table: each entry is a key with the instant at
which its node-schedule job fires. -/
abbrev JobTable := List (JobKey × Nat)

/-- scheduleReminderNotification (utils/scheduler.js): effective time is
snoozedUntil for a snoozed occurrence, else time; a strictly past time is
skipped with a warning; otherwise any existing job under the same id is
cancelled and the new job is stored under the fire key. -/
def scheduleReminderNotification (table : JobTable) (r : Reminder)
    (now : Nat) : JobTable :=
  let reminderTime := effectiveTime r
  if reminderTime < now then table
  else
    (table.filter (fun e => !(e.1 == JobKey.fire r.id))) ++
      [(JobKey.fire r.id, reminderTime)]

/-- The range query of scheduleRemindersInRange (utils/scheduler.js): stored
time within the closed bounds (no offset and no user filter in this
scheduler), active, status pending or snoozed. -/
def matchesRange (startDate endDate : Nat) (r : Reminder) : Bool :=
  startDate ≤ r.time && r.time ≤ endDate && r.active &&
    (r.status == AggStatus.pending || r.status == AggStatus.snoozed)

/-- scheduleRemindersInRange (utils/scheduler.js): queries the occurrences in
range, cancels and deletes EVERY job of the global table, then schedules
each matched occurrence; it returns the matched occurrences, modelled by
their count. -/
def scheduleRemindersInRange (table : JobTable) (store : List Reminder)
    (startDate endDate now : Nat) : JobTable × Nat :=
  let reminders := store.filter (matchesRange startDate endDate)
  let cleared : JobTable := []
  (reminders.foldl (fun tb r => scheduleReminderNotification tb r now) cleared,
   reminders.length)

end NodeSchedule

/-- Concrete occurrence with one taken and one pending item, used to test the
aggregate-status rule. -/
def exC1 : Reminder :=
  { id := 1, user := 10, time := 1000,
    medicines := [⟨MedStatus.taken, some 10, some 500⟩, ⟨MedStatus.pending, Option.none, Option.none⟩],
    status := AggStatus.partially_completed }

/-- The persisted document produced by marking item 1 of `exC1` missed. -/
def exC1res : Reminder :=
  { id := 1, user := 10, time := 1000,
    medicines := [⟨MedStatus.taken, some 10, some 500⟩, ⟨MedStatus.missed, some 10, some 2000⟩],
    status := AggStatus.partially_completed }

/-- Concrete already-actioned occurrence (aggregate partially_completed, one
item taken, one still pending) fed to the missed-dose check. -/
def exC2 : Reminder :=
  { id := 2, user := 11, time := 5000,
    medicines := [⟨MedStatus.taken, some 11, some 5100⟩, ⟨MedStatus.pending, Option.none, Option.none⟩],
    status := AggStatus.partially_completed }

/-- Environment with no guardian for the `exC2` run. -/
def exC2env : QueueService.MissedEnv :=
  { ownerParent := Option.none, parentRecord := false, parentPush := false }

/-- Concrete occurrence whose guardian was already notified, with one item
still pending. -/
def exC3 : Reminder :=
  { id := 3, user := 12, time := 50,
    medicines := [⟨MedStatus.pending, Option.none, Option.none⟩],
    status := AggStatus.pending, parentNotified := true }

/-- Environment with a linked guardian for the `exC3` runs. -/
def exC3env : QueueService.MissedEnv :=
  { ownerParent := some 99, parentRecord := true, parentPush := true }

/-- The persisted document after the first missed-dose check run on `exC3`. -/
def exC3res : Reminder :=
  { id := 3, user := 12, time := 50,
    medicines := [⟨MedStatus.missed, Option.none, Option.none⟩],
    status := AggStatus.missed, missedAt := some 100, parentNotified := true }

/-- Concrete pending occurrence about to be snoozed. -/
def exC4 : Reminder :=
  { id := 4, user := 13, time := 1000,
    medicines := [⟨MedStatus.pending, Option.none, Option.none⟩],
    status := AggStatus.pending }

/-- The persisted document after snoozing `exC4` by 15 minutes at time 500. -/
def exC4s : Reminder :=
  { id := 4, user := 13, time := 1000,
    medicines := [⟨MedStatus.pending, Option.none, Option.none⟩],
    status := AggStatus.snoozed, snoozedUntil := some 900500 }

/-- Queue state holding the outstanding fire job and missed-dose job of
`exC4` before the snooze. -/
def exC4q : QueueService.QueueState :=
  { reminderJobs := [(4, 1000)], missedJobs := [(4, 2800)] }

/-- Queue state after the snooze of `exC4`: both outstanding jobs cancelled,
one new fire job at the snoozed time. -/
def exC4q2 : QueueService.QueueState :=
  { reminderJobs := [(4, 900500)] }

/-- Environment where the owner exists and wants push notifications, so the
only reason no notification goes out is the status guard. -/
def exC4env : QueueService.FireEnv :=
  { ownerRecord := true, ownerPush := true }

/-- Concrete daily recurring occurrence without a schedule end. -/
def exC6 : Reminder :=
  { id := 6, user := 14, time := 0,
    medicines := [⟨MedStatus.pending, Option.none, Option.none⟩],
    status := AggStatus.pending, repeatKind := RepeatKind.daily }

/-- Environment for the `exC6` fire run. -/
def exC6env : QueueService.FireEnv :=
  { ownerRecord := true, ownerPush := true }

/-- Concrete daily recurring occurrence whose schedule end is already behind
the next computed time. -/
def exC7 : Reminder :=
  { id := 7, user := 15, time := 0,
    medicines := [⟨MedStatus.pending, Option.none, Option.none⟩],
    status := AggStatus.pending, repeatKind := RepeatKind.daily,
    scheduleEnd := some 0 }

/-- Queue state with one stale pre-existing job, used for the no-premature
fire witness. -/
def exC9q : QueueService.QueueState :=
  { reminderJobs := [(5, 7)] }

/-- Concrete pending occurrence whose effective fire time lies inside the
requested range but outside the IST-shifted query window. -/
def exC5 : Reminder :=
  { id := 8, user := 16, time := 1500000,
    medicines := [⟨MedStatus.pending, Option.none, Option.none⟩],
    status := AggStatus.pending }

/-- Concrete pending occurrence matched by the in-process range refresh. -/
def exC10r : Reminder :=
  { id := 21, user := 17, time := 5000,
    medicines := [⟨MedStatus.pending, Option.none, Option.none⟩],
    status := AggStatus.pending }

/-- A pre-existing scheduledJobs table holding a fire job of an unrelated
occurrence and a missed-dose check job. -/
def exC10tab : NodeSchedule.JobTable :=
  [(NodeSchedule.JobKey.fire 99, 777), (NodeSchedule.JobKey.missedCheck 21, 888)]

/-- Concrete weekly Monday/Wednesday/Friday occurrence firing on Wednesday
January 7 1970 (epoch day 6). -/
def exC8 : Reminder :=
  { id := 30, user := 18, time := 518400000,
    medicines := [⟨MedStatus.pending, Option.none, Option.none⟩],
    status := AggStatus.pending, repeatKind := RepeatKind.weekly,
    daysOfWeek := [1, 3, 5] }

/-- Claim C1, counterexample: marking the pending item of an occurrence with
statuses [taken, pending] as missed yields a stored aggregate of
partially_completed, not missed, even though an item is missed; likewise the
pre-save hook maps [taken, missed] to partially_completed.  Missed does not
dominate. -/
theorem claim1_counterexample :
    (Controller.markMedicineAsMissed exC1 1 10 2000).map Reminder.status =
      some AggStatus.partially_completed ∧
    (Controller.markMedicineAsMissed exC1 1 10 2000).map
        (fun r => r.medicines.any (fun m => m.status == MedStatus.missed)) = some true ∧
    preSaveStatus [MedStatus.taken, MedStatus.missed] AggStatus.pending =
      AggStatus.partially_completed := by decide

/-- Helper: the element written by List.set at an in-range index is a member
of the resulting list. -/
theorem mem_set_of_lt {α : Type} (l : List α) (i : Nat) (x : α) (h : i < l.length) :
    x ∈ l.set i x := by
  have h2 : i < (l.set i x).length := by simpa using h
  have h4 : (l.set i x)[i] ∈ l.set i x := List.getElem_mem h2
  rwa [List.getElem_set_self h2] at h4

/-- Helper: any over a status projection of a medicine list. -/
theorem any_map_status (l : List MedItem) (p : MedStatus → Bool) :
    (l.map (fun m => m.status)).any p = l.any (fun m => p m.status) := by
  induction l with
  | nil => rfl
  | cons a l ih => simp [List.any, ih]

/-- Helper: all over a status projection of a medicine list. -/
theorem all_map_status (l : List MedItem) (p : MedStatus → Bool) :
    (l.map (fun m => m.status)).all p = l.all (fun m => p m.status) := by
  induction l with
  | nil => rfl
  | cons a l ih => simp [List.all, ih]

/-- Helper: saving a document that has a missed item yields aggregate
partially_completed when some item is taken, and missed otherwise. -/
theorem save_status_of_missed (r : Reminder) (meds : List MedItem) (st : AggStatus)
    (hmiss : meds.any (fun m => m.status == MedStatus.missed) = true) :
    (save { r with medicines := meds, status := st }).status =
      (if meds.any (fun m => m.status == MedStatus.taken) = true then
        AggStatus.partially_completed else AggStatus.missed) ∧
    (save { r with medicines := meds, status := st }).medicines = meds := by
  refine ⟨?_, rfl⟩
  show preSaveStatus (meds.map (fun m => m.status)) st = _
  have hmm : (meds.map (fun m => m.status)).any
      (fun s => s == MedStatus.missed) = true := by
    rw [any_map_status]
    exact hmiss
  have hnotall : (meds.map (fun m => m.status)).all
      (fun s => s == MedStatus.taken) = false := by
    rcases List.any_eq_true.mp hmiss with ⟨x, hx, hxm⟩
    rw [List.all_eq_false]
    refine ⟨x.status, List.mem_map_of_mem _ hx, ?_⟩
    have hxe : x.status = MedStatus.missed := by simpa using hxm
    simp [hxe]
  have hat : (meds.map (fun m => m.status)).any
      (fun s => s == MedStatus.taken) =
      meds.any (fun m => m.status == MedStatus.taken) :=
    any_map_status meds (fun s => s == MedStatus.taken)
  cases hA : meds.any (fun m => m.status == MedStatus.taken) <;>
    simp [preSaveStatus, hnotall, hmm, hat, hA]

/-- Helper: the aggregate characterization after saving a document whose
medicines list has a missed item. -/
theorem markMissed_aggregate_core (r : Reminder) (meds : List MedItem)
    (st : AggStatus)
    (hmiss : meds.any (fun m => m.status == MedStatus.missed) = true)
    (r2 : Reminder)
    (h : save { r with medicines := meds, status := st } = r2) :
    (r2.status = AggStatus.missed ↔
      r2.medicines.any (fun m => m.status == MedStatus.taken) = false) ∧
    (r2.status = AggStatus.partially_completed ↔
      r2.medicines.any (fun m => m.status == MedStatus.taken) = true) ∧
    r2.medicines.any (fun m => m.status == MedStatus.missed) = true := by
  obtain ⟨hst, hmd⟩ := save_status_of_missed r meds st hmiss
  rw [← h, hst, hmd]
  refine ⟨?_, ?_, hmiss⟩ <;>
    cases hA : meds.any (fun m => m.status == MedStatus.taken) <;> simp [hA]

/-- Claim C1, amended: the aggregate is the deterministic pure function of the
item statuses computed by the pre-save hook with completed iff all taken,
partially_completed whenever some but not all items are taken (even when an
item is missed), and missed only when no item is taken and some item is
missed; consequently, after marking one item missed via markMedicineAsMissed
and saving, the stored aggregate is missed exactly when no item is taken, and
partially_completed exactly when some item is taken. -/
theorem claim1_theorem (r : Reminder) (i u t : Nat) (r2 : Reminder)
    (h : Controller.markMedicineAsMissed r i u t = some r2) :
    (∀ statuses current,
      (statuses.all (fun s => s == MedStatus.taken) = true →
        preSaveStatus statuses current = AggStatus.completed) ∧
      (statuses.any (fun s => s == MedStatus.taken) = true →
        statuses.all (fun s => s == MedStatus.taken) = false →
        preSaveStatus statuses current = AggStatus.partially_completed) ∧
      (statuses.any (fun s => s == MedStatus.taken) = false →
        statuses.any (fun s => s == MedStatus.missed) = true →
        preSaveStatus statuses current = AggStatus.missed)) ∧
    (r2.status = AggStatus.missed ↔
      r2.medicines.any (fun m => m.status == MedStatus.taken) = false) ∧
    (r2.status = AggStatus.partially_completed ↔
      r2.medicines.any (fun m => m.status == MedStatus.taken) = true) ∧
    r2.medicines.any (fun m => m.status == MedStatus.missed) = true := by
  constructor
  · intro statuses current
    refine ⟨?_, ?_, ?_⟩
    · intro hall
      simp [preSaveStatus, hall]
    · intro hany hall
      simp [preSaveStatus, hany, hall]
    · intro hany hmiss
      have hall : statuses.all (fun s => s == MedStatus.taken) = false := by
        rcases List.any_eq_true.mp hmiss with ⟨x, hx, hxm⟩
        have hxe : x = MedStatus.missed := by simpa using hxm
        rw [List.all_eq_false]
        exact ⟨x, hx, by simp [hxe]⟩
      simp [preSaveStatus, hall, hany, hmiss]
  · by_cases hlt : i < r.medicines.length
    · unfold Controller.markMedicineAsMissed at h
      rw [dif_pos hlt] at h
      simp only [Option.some.injEq] at h
      refine markMissed_aggregate_core r _ _ ?_ r2 h
      rw [List.any_eq_true]
      exact ⟨_, mem_set_of_lt _ _ _ hlt, by simp⟩
    · unfold Controller.markMedicineAsMissed at h
      rw [dif_neg hlt] at h
      exact Option.noConfusion h

/-- Claim C1, witness: the amended theorem applied to the concrete occurrence
`exC1` at item index 1. -/
theorem claim1_witness :
    exC1res.status = AggStatus.partially_completed ↔
      exC1res.medicines.any (fun m => m.status == MedStatus.taken) = true :=
  (claim1_theorem exC1 1 10 2000 exC1res (by decide)).2.2.1

/-- Claim C2, counterexample: an occurrence whose aggregate is
partially_completed (already actioned) but which still has one pending item
is force-marked missed by the missed-dose check handler, although the claim
says a non-pending aggregate makes the handler a no-op. -/
theorem claim2_counterexample :
    exC2.status = AggStatus.partially_completed ∧
    (QueueService.processMissedDoseCheck (some exC2) exC2env 9000).1 =
      some { exC2 with
        status := AggStatus.missed,
        medicines := [⟨MedStatus.taken, some 11, some 5100⟩,
                      ⟨MedStatus.missed, Option.none, Option.none⟩],
        missedAt := some 9000 } := by decide

/-- Claim C2, amended: the missed-dose check handler force-marks the
occurrence missed (every pending item set to missed, aggregate missed,
missedAt = now) if and only if at least one ITEM status is still pending,
regardless of the aggregate; when no item is pending the handler leaves the
state unchanged. -/
theorem claim2_theorem (r : Reminder) (env : QueueService.MissedEnv)
    (now : Nat) :
    (r.medicines.any (fun m => m.status == MedStatus.pending) = true →
      (QueueService.processMissedDoseCheck (some r) env now).1.map
          Reminder.status = some AggStatus.missed ∧
      (QueueService.processMissedDoseCheck (some r) env now).1.map
          Reminder.missedAt = some (some now) ∧
      (QueueService.processMissedDoseCheck (some r) env now).1.map
          Reminder.medicines =
        some (r.medicines.map (fun m =>
          if m.status == MedStatus.pending then
            { m with status := MedStatus.missed }
          else m))) ∧
    (r.medicines.any (fun m => m.status == MedStatus.pending) = false →
      QueueService.processMissedDoseCheck (some r) env now = (some r, 0)) := by
  constructor
  · intro hp
    cases hpar : env.ownerParent.isSome && !r.parentNotified with
    | true =>
      cases hrec : env.parentRecord with
      | true =>
        refine ⟨?_, ?_, ?_⟩ <;>
          simp [QueueService.processMissedDoseCheck, QueueService.notifyParent,
            hp, hpar, hrec]
      | false =>
        refine ⟨?_, ?_, ?_⟩ <;>
          simp [QueueService.processMissedDoseCheck, QueueService.notifyParent,
            hp, hpar, hrec]
    | false =>
      refine ⟨?_, ?_, ?_⟩ <;>
        simp [QueueService.processMissedDoseCheck, hp, hpar]
  · intro hp
    simp [QueueService.processMissedDoseCheck, hp]

/-- Claim C2, witness: the amended theorem applied to `exC2` at time 9000. -/
theorem claim2_witness :
    (QueueService.processMissedDoseCheck (some exC2) exC2env 9000).1.map
      Reminder.status = some AggStatus.missed :=
  ((claim2_theorem exC2 exC2env 9000).1 (by decide)).1

/-- Helper: the pending-to-missed map leaves no pending item. -/
theorem map_missed_no_pending (l : List MedItem) :
    (l.map (fun m =>
      if m.status == MedStatus.pending then { m with status := MedStatus.missed }
      else m)).any (fun m => m.status == MedStatus.pending) = false := by
  rw [List.any_eq_false]
  intro x hx
  rcases List.mem_map.mp hx with ⟨m, hm, rfl⟩
  cases hms : m.status == MedStatus.pending <;> simp [hms]

/-- Helper: whenever a missed-dose check run leaves a persisted occurrence,
that occurrence has no pending item. -/
theorem missedCheck_no_pending_after (store : Option Reminder)
    (env : QueueService.MissedEnv) (now : Nat) (r2 : Reminder)
    (h : (QueueService.processMissedDoseCheck store env now).1 = some r2) :
    r2.medicines.any (fun m => m.status == MedStatus.pending) = false := by
  cases store with
  | none => simp [QueueService.processMissedDoseCheck] at h
  | some r =>
    cases hp : r.medicines.any (fun m => m.status == MedStatus.pending) with
    | false =>
      simp [QueueService.processMissedDoseCheck, hp] at h
      rw [← h]
      exact hp
    | true =>
      cases hpar : env.ownerParent.isSome && !r.parentNotified with
      | true =>
        cases hrec : env.parentRecord with
        | true =>
          simp [QueueService.processMissedDoseCheck, QueueService.notifyParent,
            hp, hpar, hrec] at h
          rw [← h]
          simpa using map_missed_no_pending r.medicines
        | false =>
          simp [QueueService.processMissedDoseCheck, QueueService.notifyParent,
            hp, hpar, hrec] at h
          rw [← h]
          simpa using map_missed_no_pending r.medicines
      | false =>
        simp [QueueService.processMissedDoseCheck, hp, hpar] at h
        rw [← h]
        simpa using map_missed_no_pending r.medicines

/-- Helper: one missed-dose check run dispatches at most one guardian
notification. -/
theorem missedCheck_count_le_one (store : Option Reminder)
    (env : QueueService.MissedEnv) (now : Nat) :
    (QueueService.processMissedDoseCheck store env now).2 ≤ 1 := by
  cases store with
  | none => simp [QueueService.processMissedDoseCheck]
  | some r =>
    cases hp : r.medicines.any (fun m => m.status == MedStatus.pending) with
    | false => simp [QueueService.processMissedDoseCheck, hp]
    | true =>
      cases hpar : env.ownerParent.isSome && !r.parentNotified with
      | false => simp [QueueService.processMissedDoseCheck, hp, hpar]
      | true =>
        cases hrec : env.parentRecord with
        | true =>
          cases hpush : env.parentPush <;>
            simp [QueueService.processMissedDoseCheck,
              QueueService.notifyParent, hp, hpar, hrec, hpush]
        | false =>
          simp [QueueService.processMissedDoseCheck,
            QueueService.notifyParent, hp, hpar, hrec]

/-- Helper: a second missed-dose check run over the state persisted by a
first run dispatches no guardian notification at all. -/
theorem missedCheck_second_zero (store : Option Reminder)
    (env : QueueService.MissedEnv) (t1 t2 : Nat) :
    (QueueService.processMissedDoseCheck
      (QueueService.processMissedDoseCheck store env t1).1 env t2).2 = 0 := by
  cases h1 : (QueueService.processMissedDoseCheck store env t1).1 with
  | none => simp [QueueService.processMissedDoseCheck]
  | some r2 =>
    have hnp := missedCheck_no_pending_after store env t1 r2 h1
    simp [QueueService.processMissedDoseCheck, hnp]

/-- Helper: a missed-dose check run never clears parentNotified. -/
theorem missedCheck_parentNotified_mono (store : Option Reminder)
    (env : QueueService.MissedEnv) (now : Nat) (r r2 : Reminder)
    (h0 : store = some r)
    (h1 : (QueueService.processMissedDoseCheck store env now).1 = some r2)
    (hpn : r.parentNotified = true) : r2.parentNotified = true := by
  subst h0
  cases hp : r.medicines.any (fun m => m.status == MedStatus.pending) with
  | false =>
    simp [QueueService.processMissedDoseCheck, hp] at h1
    rw [← h1]
    exact hpn
  | true =>
    have hpar : (env.ownerParent.isSome && !r.parentNotified) = false := by
      simp [hpn]
    simp [QueueService.processMissedDoseCheck, hp, hpar] at h1
    rw [← h1]
    exact hpn

/-- Claim C3: running the missed-dose check handler twice over the persisted
state (at-least-once redelivery) dispatches the guardian notification at most
once in total, and parentNotified never transitions from true back to false
in either run. -/
theorem claim3_theorem (store : Option Reminder)
    (env : QueueService.MissedEnv) (t1 t2 : Nat) :
    ((QueueService.processMissedDoseCheck store env t1).2 +
      (QueueService.processMissedDoseCheck
        (QueueService.processMissedDoseCheck store env t1).1 env t2).2 ≤ 1) ∧
    (∀ r0 r1, store = some r0 →
      (QueueService.processMissedDoseCheck store env t1).1 = some r1 →
      r0.parentNotified = true → r1.parentNotified = true) ∧
    (∀ r1 r2,
      (QueueService.processMissedDoseCheck store env t1).1 = some r1 →
      (QueueService.processMissedDoseCheck
        (QueueService.processMissedDoseCheck store env t1).1 env t2).1 = some r2 →
      r1.parentNotified = true → r2.parentNotified = true) := by
  refine ⟨?_, ?_, ?_⟩
  · rw [missedCheck_second_zero store env t1 t2]
    simpa using missedCheck_count_le_one store env t1
  · intro r0 r1 h0 h1 hpn
    exact missedCheck_parentNotified_mono store env t1 r0 r1 h0 h1 hpn
  · intro r1 r2 h1 h2 hpn
    exact missedCheck_parentNotified_mono _ env t2 r1 r2 h1 h2 hpn

/-- Claim C3, witness: both runs on the concrete occurrence `exC3` notify at
most once and keep parentNotified true. -/
theorem claim3_witness :
    ((QueueService.processMissedDoseCheck (some exC3) exC3env 100).2 +
      (QueueService.processMissedDoseCheck
        (QueueService.processMissedDoseCheck (some exC3) exC3env 100).1
        exC3env 200).2 ≤ 1) ∧
    exC3res.parentNotified = true :=
  ⟨(claim3_theorem (some exC3) exC3env 100 200).1,
   (claim3_theorem (some exC3) exC3env 100 200).2.1 exC3 exC3res rfl
     (by decide) (by decide)⟩

/-- Claim C4: snoozing `exC4` by 15 minutes at time 500 persists aggregate
snoozed and snoozedUntil = now + 15 minutes, cancels the outstanding fire job
(and missed-dose job) and schedules exactly one new fire job at the snoozed
time — but when that re-armed job executes, the fire handler skips the
occurrence (its status is snoozed, not pending) and dispatches nothing,
contradicting the claim that the re-armed job dispatches the notification. -/
theorem claim4_theorem :
    Controller.snoozeReminder (some exC4) exC4q 15 500 = (some exC4s, exC4q2) ∧
    exC4s.status = AggStatus.snoozed ∧
    exC4s.snoozedUntil = some (500 + 15 * msPerMinute) ∧
    exC4q2.reminderJobs = [(4, 900500)] ∧
    exC4q2.missedJobs = [] ∧
    QueueService.processReminderFire (some exC4s) exC4q2 exC4env 900500 =
      ⟨some exC4s, exC4q2, 0,
        QueueService.FireResult.reminderInactiveOrCompleted⟩ := by decide

/-- Claim C6, counterexample: a daily recurring occurrence with no schedule
end, active and pending, fires successfully yet the handler queues no
recurrence-generator job, so no next occurrence is ever created. -/
theorem claim6_counterexample :
    exC6.repeatKind ≠ RepeatKind.none ∧
    exC6.scheduleEnd = Option.none ∧
    exC6.active = true ∧
    exC6.status = AggStatus.pending ∧
    (QueueService.processReminderFire (some exC6) {} exC6env 100).result =
      QueueService.FireResult.success ∧
    (QueueService.processReminderFire (some exC6) {} exC6env 100).queues.recurringJobs
      = [] := by decide

/-- Claim C6, amended: for an active pending occurrence the fire handler
queues a recurrence-generator job exactly when the repeat rule is not none
AND scheduleEnd is set; a recurring occurrence whose scheduleEnd is unset
never reaches the Recurrence Generator from the fire handler. -/
theorem claim6_theorem (store : Option Reminder)
    (q : QueueService.QueueState) (env : QueueService.FireEnv) (now : Nat)
    (r : Reminder) (h0 : store = some r) (h1 : r.active = true)
    (h2 : r.status = AggStatus.pending) :
    (QueueService.processReminderFire store q env now).queues.recurringJobs =
      (if r.repeatKind != RepeatKind.none && r.scheduleEnd.isSome then
        q.recurringJobs ++ [r.id]
      else q.recurringJobs) := by
  subst h0
  by_cases hc : r.time + 30 * msPerMinute ≤ now <;>
    cases hrep : r.repeatKind != RepeatKind.none && r.scheduleEnd.isSome <;>
      simp [QueueService.processReminderFire, h1, h2, hc, hrep]

/-- Claim C6, witness: the amended theorem applied to `exC6`, whose unset
schedule end leaves the recurrence queue untouched. -/
theorem claim6_witness :
    (QueueService.processReminderFire (some exC6) {} exC6env 100).queues.recurringJobs =
      (if exC6.repeatKind != RepeatKind.none && exC6.scheduleEnd.isSome then
        QueueService.QueueState.recurringJobs {} ++ [exC6.id]
      else QueueService.QueueState.recurringJobs {}) :=
  claim6_theorem (some exC6) {} exC6env 100 exC6 rfl rfl rfl

/-- Claim C7: when scheduleEnd is set and the computed next time is strictly
later, createNextOccurrence persists no new occurrence, leaves the queues
unchanged and returns silently. -/
theorem claim7_theorem (r : Reminder) (e newId now : Nat)
    (q : QueueService.QueueState) (h1 : r.scheduleEnd = some e)
    (h2 : e < QueueService.calculateNextTime r) :
    QueueService.createNextOccurrence r newId now q = (Option.none, q) := by
  simp [QueueService.createNextOccurrence, h1, h2]

/-- Claim C7, witness: the theorem applied to `exC7`, whose schedule end (the
epoch) is strictly before the next daily time. -/
theorem claim7_witness :
    QueueService.createNextOccurrence exC7 77 0 {} = (Option.none, {}) :=
  claim7_theorem exC7 0 77 0 {} rfl (by decide)

/-- Claim C9: scheduleReminder refuses a fire time that is not strictly in
the future — it returns false and changes nothing, with no error — and every
job it ever leaves in the reminder queue is either pre-existing or has a fire
time strictly later than now at scheduling; the other queues are untouched. -/
theorem claim9_theorem (q : QueueService.QueueState)
    (reminderId fireAt now : Nat) :
    (fireAt ≤ now →
      QueueService.scheduleReminder q reminderId fireAt now = (q, false)) ∧
    (∀ j, j ∈ (QueueService.scheduleReminder q reminderId fireAt now).1.reminderJobs →
      j ∈ q.reminderJobs ∨ now < j.2) ∧
    (QueueService.scheduleReminder q reminderId fireAt now).1.missedJobs =
      q.missedJobs ∧
    (QueueService.scheduleReminder q reminderId fireAt now).1.recurringJobs =
      q.recurringJobs := by
  refine ⟨?_, ?_, ?_, ?_⟩
  · intro h
    simp [QueueService.scheduleReminder, h]
  · intro j hj
    by_cases h : fireAt ≤ now
    · simp [QueueService.scheduleReminder, h] at hj
      exact Or.inl hj
    · simp [QueueService.scheduleReminder, h] at hj
      rcases hj with hj | hj
      · exact Or.inl hj
      · right
        rw [hj]
        exact Nat.lt_of_not_le h
  · by_cases h : fireAt ≤ now <;> simp [QueueService.scheduleReminder, h]
  · by_cases h : fireAt ≤ now <;> simp [QueueService.scheduleReminder, h]

/-- Claim C9, witness: a present-time fire is dropped with no job, and the
job created for a future fire time is strictly in the future. -/
theorem claim9_witness :
    QueueService.scheduleReminder exC9q 9 100 100 = (exC9q, false) ∧
    ((9, 200) ∈ exC9q.reminderJobs ∨ 100 < 200) :=
  ⟨(claim9_theorem exC9q 9 100 100).1 (by decide),
   (claim9_theorem exC9q 9 200 100).2.1 (9, 200) (by decide)⟩

/-- Claim C5, counterexample: an active pending occurrence with effective
fire time 1500000 inside the requested closed interval [1000000, 2000000] is
NOT scheduled (count 0, no job), because the query shifts both bounds by
five hours thirty minutes and compares them to the stored time. -/
theorem claim5_counterexample :
    1000000 ≤ effectiveTime exC5 ∧ effectiveTime exC5 ≤ 2000000 ∧
    exC5.status = AggStatus.pending ∧ exC5.active = true ∧
    0 < effectiveTime exC5 ∧
    QueueService.scheduleRemindersInRange [exC5] {} 1000000 2000000
      Option.none 0 = ({}, 0) := by decide

/-- Helper: unrolling the scheduling loop of scheduleRemindersInRange. -/
theorem rangeFold_spec (now : Nat) (l : List Reminder)
    (q : QueueService.QueueState) (c : Nat) :
    (l.foldl (QueueService.rangeStep now) (q, c)).2 =
      c + (l.filter (fun r => decide (now < effectiveTime r))).length ∧
    (l.foldl (QueueService.rangeStep now) (q, c)).1.reminderJobs =
      q.reminderJobs ++
        (l.filter (fun r => decide (now < effectiveTime r))).map
          (fun r => (r.id, effectiveTime r)) := by
  induction l generalizing q c with
  | nil => simp
  | cons r l ih =>
    by_cases h : now < effectiveTime r
    · have hsch : (QueueService.scheduleReminder q r.id (effectiveTime r) now).1 =
          { q with reminderJobs := q.reminderJobs ++ [(r.id, effectiveTime r)] } := by
        simp [QueueService.scheduleReminder, Nat.not_le.mpr h]
      have hmain := ih { q with
        reminderJobs := q.reminderJobs ++ [(r.id, effectiveTime r)] } (c + 1)
      constructor
      · rw [List.foldl_cons]
        show ((l.foldl (QueueService.rangeStep now)
          (QueueService.rangeStep now (q, c) r))).2 = _
        simp only [QueueService.rangeStep, if_pos h, hsch]
        rw [hmain.1]
        simp [List.filter_cons, h]
        omega
      · rw [List.foldl_cons]
        show ((l.foldl (QueueService.rangeStep now)
          (QueueService.rangeStep now (q, c) r))).1.reminderJobs = _
        simp only [QueueService.rangeStep, if_pos h, hsch]
        rw [hmain.2]
        simp [List.filter_cons, h]
    · have hmain := ih q c
      constructor
      · rw [List.foldl_cons]
        show ((l.foldl (QueueService.rangeStep now)
          (QueueService.rangeStep now (q, c) r))).2 = _
        simp only [QueueService.rangeStep, if_neg h]
        rw [hmain.1]
        simp [List.filter_cons, h]
      · rw [List.foldl_cons]
        show ((l.foldl (QueueService.rangeStep now)
          (QueueService.rangeStep now (q, c) r))).1.reminderJobs = _
        simp only [QueueService.rangeStep, if_neg h]
        rw [hmain.2]
        simp [List.filter_cons, h]

/-- Claim C5, amended: scheduleRemindersInRange selects the stored
occurrences whose STORED time lies in the closed interval shifted by five
hours thirty minutes [start + 5h30m, end + 5h30m], active, status pending or
snoozed, optionally filtered to one user; of those it schedules exactly the
ones whose effective fire time (snoozedUntil when snoozed, else the stored
time) is strictly in the future, one job each at the effective time, and
returns the count actually scheduled. -/
theorem claim5_theorem (store : List Reminder) (q : QueueService.QueueState)
    (startDate endDate : Nat) (userId : Option Nat) (now : Nat) :
    (QueueService.scheduleRemindersInRange store q startDate endDate userId now).2 =
      (((store.filter (QueueService.matchesRangeQuery
          (startDate + QueueService.istOffsetMs)
          (endDate + QueueService.istOffsetMs) userId)).filter
        (fun r => decide (now < effectiveTime r))).length) ∧
    (QueueService.scheduleRemindersInRange store q startDate endDate userId now).1.reminderJobs =
      q.reminderJobs ++
        ((store.filter (QueueService.matchesRangeQuery
            (startDate + QueueService.istOffsetMs)
            (endDate + QueueService.istOffsetMs) userId)).filter
          (fun r => decide (now < effectiveTime r))).map
            (fun r => (r.id, effectiveTime r)) := by
  have hmain := rangeFold_spec now (store.filter
    (QueueService.matchesRangeQuery (startDate + QueueService.istOffsetMs)
      (endDate + QueueService.istOffsetMs) userId)) q 0
  constructor
  · show ((store.filter (QueueService.matchesRangeQuery
        (startDate + QueueService.istOffsetMs)
        (endDate + QueueService.istOffsetMs) userId)).foldl
          (QueueService.rangeStep now) (q, 0)).2 = _
    rw [hmain.1]
    exact Nat.zero_add _
  · show ((store.filter (QueueService.matchesRangeQuery
        (startDate + QueueService.istOffsetMs)
        (endDate + QueueService.istOffsetMs) userId)).foldl
          (QueueService.rangeStep now) (q, 0)).1.reminderJobs = _
    rw [hmain.2]

/-- Helper: every entry left by the in-process scheduling loop is either a
pre-existing table entry or the fire key of one of the processed
occurrences. -/
theorem schedFold_entry (now : Nat) (l : List Reminder)
    (tb : NodeSchedule.JobTable) (entry : NodeSchedule.JobKey × Nat)
    (h : entry ∈ l.foldl
      (fun t r => NodeSchedule.scheduleReminderNotification t r now) tb) :
    entry ∈ tb ∨ ∃ r, r ∈ l ∧ entry.1 = NodeSchedule.JobKey.fire r.id := by
  induction l generalizing tb with
  | nil => exact Or.inl h
  | cons r l ih =>
    rcases ih (NodeSchedule.scheduleReminderNotification tb r now) h with
      htb | ⟨r2, hr2, hk⟩
    · by_cases hc : effectiveTime r < now
      · left
        simpa [NodeSchedule.scheduleReminderNotification, hc] using htb
      · simp [NodeSchedule.scheduleReminderNotification, hc] at htb
        rcases htb with ⟨h1, _⟩ | heq
        · exact Or.inl h1
        · right
          exact ⟨r, by simp, by rw [heq]⟩
    · right
      exact ⟨r2, by simp [hr2], hk⟩

/-- Claim C10: every call of the in-process scheduleRemindersInRange behaves
as if the global job table were empty — every pre-existing job, including
missed-dose checks and jobs of occurrences outside the range, is cancelled
and removed — and every entry of the resulting table is the fire job of an
occurrence matched by the range query. -/
theorem claim10_theorem (table : NodeSchedule.JobTable)
    (store : List Reminder) (s e now : Nat) :
    NodeSchedule.scheduleRemindersInRange table store s e now =
      NodeSchedule.scheduleRemindersInRange [] store s e now ∧
    (∀ entry, entry ∈ (NodeSchedule.scheduleRemindersInRange table store s e now).1 →
      ∃ r, r ∈ store ∧ NodeSchedule.matchesRange s e r = true ∧
        entry.1 = NodeSchedule.JobKey.fire r.id) := by
  refine ⟨rfl, ?_⟩
  intro entry hentry
  have h2 : entry ∈ (store.filter (NodeSchedule.matchesRange s e)).foldl
      (fun t r => NodeSchedule.scheduleReminderNotification t r now) [] := hentry
  rcases schedFold_entry now _ _ entry h2 with hnil | ⟨r, hr, hk⟩
  · exact absurd hnil (List.not_mem_nil entry)
  · rcases List.mem_filter.mp hr with ⟨hrs, hrm⟩
    exact ⟨r, hrs, hrm, hk⟩

/-- Helper: membership in an insertion step. -/
theorem mem_insertSorted (a x : Nat) (l : List Nat) :
    x ∈ insertSorted a l ↔ x = a ∨ x ∈ l := by
  induction l with
  | nil => simp [insertSorted]
  | cons b l ih =>
    by_cases h : a ≤ b
    · simp [insertSorted, h]
    · simp [insertSorted, h, ih]
      tauto

/-- Helper: insertion preserves ascending sortedness. -/
theorem pairwise_insertSorted (a : Nat) (l : List Nat)
    (h : l.Pairwise (· ≤ ·)) : (insertSorted a l).Pairwise (· ≤ ·) := by
  induction l with
  | nil => simp [insertSorted]
  | cons b l ih =>
    rcases List.pairwise_cons.mp h with ⟨hb, hl⟩
    by_cases hab : a ≤ b
    · have he : insertSorted a (b :: l) = a :: b :: l := by
        simp [insertSorted, hab]
      rw [he]
      refine List.pairwise_cons.mpr ⟨?_, h⟩
      intro x hx
      rcases List.mem_cons.mp hx with rfl | hxl
      · exact hab
      · exact Nat.le_trans hab (hb x hxl)
    · have he : insertSorted a (b :: l) = b :: insertSorted a l := by
        simp [insertSorted, hab]
      rw [he]
      refine List.pairwise_cons.mpr ⟨?_, ih hl⟩
      intro x hx
      rcases (mem_insertSorted a x l).mp hx with rfl | hxl
      · exact Nat.le_of_lt (Nat.lt_of_not_le hab)
      · exact hb x hxl

/-- Helper: the ascending sort keeps exactly the original members. -/
theorem mem_sortNat (x : Nat) (l : List Nat) : x ∈ sortNat l ↔ x ∈ l := by
  induction l with
  | nil => simp [sortNat]
  | cons a l ih =>
    show x ∈ insertSorted a (sortNat l) ↔ _
    rw [mem_insertSorted]
    simp [ih]

/-- Helper: the ascending sort is sorted. -/
theorem pairwise_sortNat (l : List Nat) : (sortNat l).Pairwise (· ≤ ·) := by
  induction l with
  | nil => simp [sortNat]
  | cons a l ih => exact pairwise_insertSorted a (sortNat l) ih

/-- Helper: on a sorted list, find? returns the minimal element satisfying
the predicate. -/
theorem find?_sorted_min (l : List Nat) (p : Nat → Bool) (m : Nat)
    (hs : l.Pairwise (· ≤ ·)) (hm : m ∈ l) (hpm : p m = true)
    (hmin : ∀ x, x ∈ l → p x = true → m ≤ x) :
    l.find? p = some m := by
  induction l with
  | nil => simp at hm
  | cons b l ih =>
    rcases List.pairwise_cons.mp hs with ⟨hb, hl⟩
    cases hpb : p b with
    | true =>
      have hbm : m = b := by
        rcases List.mem_cons.mp hm with rfl | hml
        · rfl
        · exact Nat.le_antisymm (hmin b (by simp) hpb) (hb m hml)
      rw [List.find?_cons_of_pos l hpb, hbm]
    | false =>
      have hmb : m ∈ l := by
        rcases List.mem_cons.mp hm with rfl | hml
        · rw [hpm] at hpb
          exact absurd hpb (by simp)
        · exact hml
      rw [List.find?_cons_of_neg l (by simp [hpb])]
      exact ih hl hmb (fun x hx hpx => hmin x (by simp [hx]) hpx)

/-- Helper: the head of a sorted list is its minimum. -/
theorem headD_sorted_min (l : List Nat) (m : Nat)
    (hs : l.Pairwise (· ≤ ·)) (hm : m ∈ l) (hmin : ∀ x, x ∈ l → m ≤ x) :
    l.headD 0 = m := by
  cases l with
  | nil => simp at hm
  | cons b l =>
    show b = m
    rcases List.pairwise_cons.mp hs with ⟨hb, _⟩
    rcases List.mem_cons.mp hm with rfl | hml
    · rfl
    · exact Nat.le_antisymm (hb m hml) (hmin b (by simp))

/-- Claim C8: the weekly next-time computation picks the smallest listed
day-of-week strictly greater than the current one (same week, same time of
day), wraps to the smallest listed day next week when there is none, and
defaults to plus seven days when daysOfWeek is empty; in particular with
daysOfWeek = [1, 3, 5] a Wednesday fire yields Friday of the same week (two
days later, same time of day) and a Friday fire yields Monday of the next
week (three days later). -/
theorem claim8_theorem (r : Reminder) (t cur : Nat)
    (hrep : r.repeatKind = RepeatKind.weekly) (ht : r.time = t)
    (hcur : getDay t = cur) :
    (∀ m, m ∈ r.daysOfWeek → cur < m →
      (∀ d, d ∈ r.daysOfWeek → cur < d → m ≤ d) →
      QueueService.calculateNextTime r = addDays t (m - cur)) ∧
    (∀ m0, (∀ d, d ∈ r.daysOfWeek → ¬ cur < d) → m0 ∈ r.daysOfWeek →
      (∀ d, d ∈ r.daysOfWeek → m0 ≤ d) →
      QueueService.calculateNextTime r = addDays t (7 - cur + m0)) ∧
    (r.daysOfWeek = [] → QueueService.calculateNextTime r = addDays t 7) ∧
    (r.daysOfWeek = [1, 3, 5] → cur = 3 →
      QueueService.calculateNextTime r = addDays t 2 ∧
      getDay (addDays t 2) = 5 ∧ addDays t 2 % msPerDay = t % msPerDay) ∧
    (r.daysOfWeek = [1, 3, 5] → cur = 5 →
      QueueService.calculateNextTime r = addDays t 3 ∧
      getDay (addDays t 3) = 1 ∧ addDays t 3 % msPerDay = t % msPerDay) := by
  have hgen : ∀ m, m ∈ r.daysOfWeek → cur < m →
      (∀ d, d ∈ r.daysOfWeek → cur < d → m ≤ d) →
      QueueService.calculateNextTime r = addDays t (m - cur) := by
    intro m hm hcm hmin
    have hne : 0 < r.daysOfWeek.length := by
      cases hd : r.daysOfWeek with
      | nil => rw [hd] at hm; simp at hm
      | cons a l => simp [hd]
    have hfind : (sortNat r.daysOfWeek).find?
        (fun day => decide (cur < day)) = some m :=
      find?_sorted_min _ _ m (pairwise_sortNat _)
        ((mem_sortNat _ _).mpr hm) (by simp [hcm])
        (fun x hx hpx =>
          hmin x ((mem_sortNat _ _).mp hx) (by simpa using hpx))
    simp [QueueService.calculateNextTime, hrep, ht, hcur, hne, hfind]
  have hwrap : ∀ m0, (∀ d, d ∈ r.daysOfWeek → ¬ cur < d) →
      m0 ∈ r.daysOfWeek → (∀ d, d ∈ r.daysOfWeek → m0 ≤ d) →
      QueueService.calculateNextTime r = addDays t (7 - cur + m0) := by
    intro m0 hnone hm0 hmin
    have hne : 0 < r.daysOfWeek.length := by
      cases hd : r.daysOfWeek with
      | nil => rw [hd] at hm0; simp at hm0
      | cons a l => simp [hd]
    have hfind : (sortNat r.daysOfWeek).find?
        (fun day => decide (cur < day)) = Option.none :=
      List.find?_eq_none.mpr
        (fun x hx => by simpa using hnone x ((mem_sortNat _ _).mp hx))
    have hhead : (sortNat r.daysOfWeek).headD 0 = m0 :=
      headD_sorted_min _ m0 (pairwise_sortNat _)
        ((mem_sortNat _ _).mpr hm0)
        (fun x hx => hmin x ((mem_sortNat _ _).mp hx))
    have hhead2 : (sortNat r.daysOfWeek).head?.getD 0 = m0 := by
      simpa using hhead
    simp [QueueService.calculateNextTime, hrep, ht, hcur, hne, hfind, hhead2]
  refine ⟨hgen, hwrap, ?_, ?_, ?_⟩
  · intro hd
    simp [QueueService.calculateNextTime, hrep, ht, hd]
  · intro hd hc
    refine ⟨?_, ?_, ?_⟩
    · have hg := hgen 5 (by rw [hd]; simp) (by omega)
        (by rw [hd]; intro d hdm hcd; simp at hdm; omega)
      rw [hc] at hg
      simpa using hg
    · have hx : (t / msPerDay + 4) % 7 = 3 := by
        rw [← hc, ← hcur]
        rfl
      have hdiv : (t + 2 * msPerDay) / msPerDay = t / msPerDay + 2 :=
        Nat.add_mul_div_right t 2 (by norm_num [msPerDay])
      show (((t + 2 * msPerDay) / msPerDay + 4) % 7) = 5
      rw [hdiv]
      omega
    · show (t + 2 * msPerDay) % msPerDay = t % msPerDay
      exact Nat.add_mul_mod_self_right t 2 msPerDay
  · intro hd hc
    refine ⟨?_, ?_, ?_⟩
    · have := hwrap 1 (by rw [hd]; intro d hdm; simp at hdm; omega)
        (by rw [hd]; simp) (by rw [hd]; intro d hdm; simp at hdm; omega)
      simpa [hc] using this
    · have hx : (t / msPerDay + 4) % 7 = 5 := by
        rw [← hc, ← hcur]
        rfl
      have hdiv : (t + 3 * msPerDay) / msPerDay = t / msPerDay + 3 :=
        Nat.add_mul_div_right t 3 (by norm_num [msPerDay])
      show (((t + 3 * msPerDay) / msPerDay + 4) % 7) = 1
      rw [hdiv]
      omega
    · show (t + 3 * msPerDay) % msPerDay = t % msPerDay
      exact Nat.add_mul_mod_self_right t 3 msPerDay

/-- Claim C8, witness: the concrete Monday/Wednesday/Friday occurrence
firing on Wednesday January 7 1970 recurs on Friday January 9 1970 at the
same time of day. -/
theorem claim8_witness :
    QueueService.calculateNextTime exC8 = addDays 518400000 2 ∧
    getDay (addDays 518400000 2) = 5 ∧
    addDays 518400000 2 % msPerDay = 518400000 % msPerDay :=
  (claim8_theorem exC8 518400000 3 rfl rfl (by decide)).2.2.2.1 rfl rfl

/-- Claim C10, witness: a table holding a foreign fire job and a missed-dose
check job is wiped by the refresh, and the surviving entry is the fire job of
the matched occurrence. -/
theorem claim10_witness :
    NodeSchedule.scheduleRemindersInRange exC10tab [exC10r] 0 10000 100 =
      NodeSchedule.scheduleRemindersInRange [] [exC10r] 0 10000 100 ∧
    (∃ r, r ∈ [exC10r] ∧ NodeSchedule.matchesRange 0 10000 r = true ∧
      (NodeSchedule.JobKey.fire 21, (5000 : Nat)).1 =
        NodeSchedule.JobKey.fire r.id) :=
  ⟨(claim10_theorem exC10tab [exC10r] 0 10000 100).1,
   (claim10_theorem exC10tab [exC10r] 0 10000 100).2
     (NodeSchedule.JobKey.fire 21, (5000 : Nat)) (by decide)⟩

end MedReminder
